import Mathlib

set_option maxHeartbeats 1000000
set_option maxRecDepth 10000

/-!
Shallow embedding of the streaming transcription core of the
orange-pi-5-max-rknn-sensevoice-speech repository, together with proofs
about the embedded operations.

Modelling conventions:
* Python floats are modelled as rationals (`ℚ`); the numeric library
  routines that are not rational-valued (`np.exp`, `np.sqrt`, and the
  FFT-based spectral entropy) are passed in as function parameters, since
  the properties proved here do not depend on their values.
* Python strings are modelled as `String` / `List Char`; text operations
  (`str.split()`, `str.strip()`, `str.lower()`, single-character
  `str.replace`) are re-implemented on character lists because the claims
  only exercise their standard behaviour.
* Python dictionaries that matter for the claims (the decoder's
  `_hash_to_text`) are modelled as insertion-ordered association lists,
  mirroring CPython's dict semantics (updating an existing key keeps its
  insertion position).
* Mutation is modelled by explicit state passing: a method that mutates
  `self` becomes a function returning the new state.
-/

/-! ## Levenshtein distance and similarity

Embeds `levenshtein_similarity` from `src/transcription_decoder.py`
(lines 36-64): an early-out for equal strings, an early-out for empty
strings, a quick reject when the length difference exceeds half of the
longer length, and otherwise a row-by-row dynamic program for the
Levenshtein distance.  The reference notion of Levenshtein distance used
to judge the code is Mathlib's `levenshtein Levenshtein.defaultCost`
(unit insert/delete costs, substitution cost `0`/`1`). -/

/-- Inner loop of the DP (`for j in range(len2)`): `ys` is the part of
`s2` from column `j` on, `prev` is the suffix of the previous row starting
at index `j`, and `last` is `curr[j]`, the entry appended most recently to
the current row.  Returns the entries `curr[j+1], curr[j+2], ...`.
`insertions = prev[j+1] + 1`, `deletions = curr[j] + 1`,
`substitutions = prev[j] + (0 if s1[i] == s2[j] else 1)`. -/
def levRowAux (c : Char) : List Char → List ℕ → ℕ → List ℕ
  | [], _, _ => []
  | _ :: _, [], _ => []
  | y :: ys, pj :: prest, last =>
    let ins := prest.headD 0 + 1
    let del := last + 1
    let sub := pj + (if c = y then 0 else 1)
    let v := min ins (min del sub)
    v :: levRowAux c ys prest v

/-- Outer loop of the DP (`for i in range(len1)`): consumes the remaining
characters of `s1`, carrying the loop counter `i` and the previous row
`prev`; each iteration builds `curr = [i+1] ++ inner-loop entries` and
recurses with it. -/
def levLoop (s2 : List Char) : List Char → ℕ → List ℕ → List ℕ
  | [], _, prev => prev
  | c :: cs, i, prev => levLoop s2 cs (i + 1) ((i + 1) :: levRowAux c s2 prev (i + 1))

/-- `levenshtein_similarity` from `src/transcription_decoder.py` on
character lists.  `1e0`-exact translation of the Python: equal strings
give `1.0`, an empty side gives `0.0`, a relative length difference above
`0.5` is quick-rejected to `0.0`, otherwise
`1 - distance / max_len` with the DP distance `prev[len2]`. -/
def levSimChars (l1 l2 : List Char) : ℚ :=
  if l1 = l2 then 1
  else if l1 = [] ∨ l2 = [] then 0
  else
    let len1 := l1.length
    let len2 := l2.length
    if ((((len1 : ℤ) - (len2 : ℤ)).natAbs : ℚ) / ((max len1 len2 : ℕ) : ℚ)) > 1/2 then 0
    else
      let prev := levLoop l2 l1 0 (List.range (len2 + 1))
      let distance := prev.getD len2 0
      let max_len := max len1 len2
      if 0 < max_len then 1 - (distance : ℚ) / (max_len : ℚ) else 1

/-- `levenshtein_similarity(s1, s2)` on Python strings. -/
def levenshtein_similarity (s1 s2 : String) : ℚ :=
  levSimChars s1.data s2.data

/-! ### Correctness of the DP against Mathlib's `levenshtein`

The Python DP iterates over prefixes, so its row invariant is naturally
stated in terms of the distance of *reversed* prefixes (Mathlib's
`levenshtein` recurses on the front of its arguments).  We prove
(1) the DP computes `levenshtein` of the reversed inputs, and
(2) `levenshtein` is invariant under reversing both inputs,
which together identify the DP output with the Levenshtein distance. -/

/-- Levenshtein distance with the standard unit costs, as a plain
abbreviation of Mathlib's `levenshtein`. -/
def levDist (xs ys : List Char) : ℕ :=
  levenshtein Levenshtein.defaultCost xs ys

/-- Levenshtein distance of the reversed lists: the quantity the
prefix-oriented DP rows actually track. -/
def ldist (xs ys : List Char) : ℕ :=
  levDist xs.reverse ys.reverse

/-- Specification of a DP row suffix: the values `f (q ++ ys[:1])`,
`f (q ++ ys[:2])`, ..., `f (q ++ ys)`. -/
def rowSpec (f : List Char → ℕ) : List Char → List Char → List ℕ
  | _, [] => []
  | q, y :: ys => f (q ++ [y]) :: rowSpec f (q ++ [y]) ys

/-- A full DP row suffix including the `j = 0` entry `f q`. -/
def prevSpec (f : List Char → ℕ) (q ys : List Char) : List ℕ :=
  f q :: rowSpec f q ys

/-! ## Python text primitives

Character-list implementations of the Python string operations used by
the decoder: `str.lower()` / `str.upper()` (ASCII as exercised here),
`str.strip()`, whitespace `str.split()`, `' '.join(...)`, and negative
tail slices `xs[-n:]`. -/

/-- `str.lower()` (ASCII range, via `Char.toLower`). -/
def lowerStr (s : String) : String :=
  String.mk (s.data.map Char.toLower)

/-- `str.upper()` (ASCII range, via `Char.toUpper`). -/
def upperStr (s : String) : String :=
  String.mk (s.data.map Char.toUpper)

/-- `str.strip()` on a character list. -/
def trimChars (l : List Char) : List Char :=
  ((l.dropWhile Char.isWhitespace).reverse.dropWhile Char.isWhitespace).reverse

/-- `str.strip()`. -/
def trimStr (s : String) : String :=
  String.mk (trimChars s.data)

/-- Whitespace splitting (`str.split()` with no argument): splits on runs
of whitespace and never yields empty words.  `acc` is the current word in
reverse. -/
def splitWsAux : List Char → List Char → List (List Char)
  | [], acc => if acc = [] then [] else [acc.reverse]
  | ch :: rest, acc =>
    if ch.isWhitespace then
      if acc = [] then splitWsAux rest []
      else acc.reverse :: splitWsAux rest []
    else splitWsAux rest (ch :: acc)

/-- `str.split()`. -/
def splitWs (s : String) : List String :=
  (splitWsAux s.data []).map String.mk

/-- `' '.join(words)` on character lists. -/
def joinSpaceChars : List (List Char) → List Char
  | [] => []
  | [w] => w
  | w :: ws => w ++ ' ' :: joinSpaceChars ws

/-- `' '.join(words)`. -/
def joinSpace (ws : List String) : String :=
  String.mk (joinSpaceChars (ws.map String.data))

/-- Python negative tail slice `xs[-n:]` (for `n = 0` this is the whole
list, matching `xs[-0:] = xs[0:]`). -/
def pyTailSlice (n : ℕ) (l : List α) : List α :=
  if n = 0 then l else l.drop (l.length - n)

/-- `collections.deque(maxlen = n)` append semantics: keep the last `n`
elements. -/
def keepLast (n : ℕ) (l : List α) : List α :=
  l.drop (l.length - n)

/-! ## SenseVoice metadata-token parsing

Embeds `parse_sensevoice_tokens` from `src/transcription_decoder.py`
(lines 67-109).  The regex `<\|(.*?)\|>` is implemented as a left-to-right
scanner: at each `<|`, the shortest closing `|>` with no intervening
newline (`.` does not match `\n`) terminates a tag; an unterminated `<|`
is ordinary text and scanning resumes one character later. -/

/-- Find the shortest `|>`-terminated tag body (no newline allowed):
returns `(body, rest-after-close)`.  A `|` that is not followed by `>`
belongs to the body, like any other non-newline character. -/
def findClose : List Char → Option (List Char × List Char)
  | [] => none
  | ch :: rest =>
    if ch = '|' ∧ rest.headD '\n' = '>' then some ([], rest.tail)
    else if ch = '\n' then none
    else (findClose rest).map (fun p => (ch :: p.1, p.2))

/-- One pass computing both `re.findall(r"<\|(.*?)\|>", text)` (the tag
bodies) and `re.sub(r"<\|.*?\|>", "", text)` (the stripped text): at each
`<|`, the shortest close wins; if a `<|` never closes, its `<` is literal
text and scanning resumes at the `|`.  Structured with a fuel argument
(one unit per consumed character) so that the definition is structurally
recursive; `scanTags` supplies `fuel = length`, which by
`findClose_length` can never run out. -/
def scanTagsF : ℕ → List Char → List (List Char) × List Char
  | 0, l => ([], l)
  | _ + 1, [] => ([], [])
  | fuel + 1, '<' :: '|' :: rest =>
    match findClose rest with
    | some (body, after) =>
      let r := scanTagsF fuel after
      (body :: r.1, r.2)
    | none =>
      let r := scanTagsF fuel ('|' :: rest)
      (r.1, '<' :: r.2)
  | fuel + 1, ch :: rest =>
    let r := scanTagsF fuel rest
    (r.1, ch :: r.2)

/-- The tag scanner on a whole text. -/
def scanTags (l : List Char) : List (List Char) × List Char :=
  scanTagsF l.length l

/-- `LANGUAGE_TAGS` (code → display name). -/
def LANGUAGE_TAGS : List (String × String) :=
  [("zh", "Chinese"), ("en", "English"), ("ja", "Japanese"),
   ("ko", "Korean"), ("yue", "Cantonese"), ("auto", "Auto")]

/-- Keys of `EMOTION_TAGS`. -/
def EMOTION_KEYS : List String :=
  ["HAPPY", "SAD", "ANGRY", "NEUTRAL", "FEARFUL", "DISGUSTED", "SURPRISED"]

/-- Keys of `AUDIO_EVENT_TAGS`. -/
def AUDIO_EVENT_KEYS : List String :=
  ["BGM", "Speech", "Applause", "Laughter", "Crying", "Sneeze", "Breath", "Cough"]

/-- Parsed SenseVoice metadata (`parse_sensevoice_tokens` result dict). -/
structure SenseVoiceMetadata where
  raw_text : String
  text : String
  language : Option String
  emotion : Option String
  audio_events : List String
  has_itn : Bool
deriving DecidableEq, Repr

/-- `parse_sensevoice_tokens(text)` from `src/transcription_decoder.py`. -/
def parse_sensevoice_tokens (text : String) : SenseVoiceMetadata :=
  let scanned := scanTags text.data
  let tokens := scanned.1.map String.mk
  let base : SenseVoiceMetadata :=
    { raw_text := text, text := text, language := none, emotion := none,
      audio_events := [], has_itn := false }
  let meta := tokens.foldl (fun m token =>
    let token_upper := upperStr token
    match LANGUAGE_TAGS.lookup token with
    | some name => { m with language := some name }
    | none =>
      if token_upper ∈ EMOTION_KEYS then { m with emotion := some token_upper }
      else if token_upper ∈ AUDIO_EVENT_KEYS then
        { m with audio_events := m.audio_events ++ [token_upper] }
      else if token = "withitn" ∨ token = "WITHITN" then { m with has_itn := true }
      else m) base
  { meta with text := String.mk (trimChars scanned.2) }

/-! ## TranscriptionDecoder (src/transcription_decoder.py)

State and configuration of `TranscriptionDecoder`.  The SentencePiece
tokenizer is opaque (`decode_ids`, `id_to_piece` function parameters), as
is `np.exp`.  `decode_output` returns the `Option` result together with
the (possibly mutated) decoder state; `add_audio_hash` is the separate
state transition invoked by the postprocessing stage after a successful
decode. -/

/-- A word with timing (`{word, start_ms, end_ms, confidence}`). -/
structure Word where
  word : String
  start_ms : ℚ
  end_ms : ℚ
  confidence : ℚ
deriving DecidableEq, Repr

/-- A decoded transcription (`result` dict of `decode_output`). -/
structure TranscriptionResult where
  text : String
  words : List Word
  language : Option String
  emotion : Option String
  audio_events : List String
  raw_text : String
  has_itn : Bool
  confidence : ℚ
deriving DecidableEq, Repr

/-- The stored previous-chunk tail (`_prev_chunk_tail`). -/
structure ChunkTail where
  text : String
  confidence : ℚ
  words : List String
deriving DecidableEq, Repr

/-- Mutable state of `TranscriptionDecoder`: `last_texts` (deque maxlen 6),
`_last_emit_ts`, `_chunk_hashes` (deque maxlen 10), `_hash_to_text`
(insertion-ordered dict), `_prev_chunk_tail`. -/
structure DecoderState where
  last_texts : List String
  last_emit_ts : ℚ
  chunk_hashes : List String
  hash_to_text : List (String × TranscriptionResult)
  prev_chunk_tail : Option ChunkTail
deriving DecidableEq, Repr

/-- Configuration of `TranscriptionDecoder` (`self.config` values plus the
fields fixed in `__init__`; `blank_id` is set to `0` there). -/
structure DecoderConfig where
  min_chars : ℕ
  similarity_threshold : ℚ
  duplicate_cooldown_s : ℚ
  enable_confidence_stitching : Bool
  confidence_threshold : ℚ
  overlap_word_count : ℕ
  blank_id : ℕ
deriving DecidableEq, Repr

/-- The opaque SentencePiece tokenizer (`self.sp`). -/
structure Tokenizer where
  decode_ids : List ℕ → String
  id_to_piece : ℕ → String

/-- Python-dict insert/update: updating an existing key keeps its
insertion position, a new key is appended. -/
def dictUpdate (m : List (String × TranscriptionResult)) (k : String)
    (v : TranscriptionResult) : List (String × TranscriptionResult) :=
  if m.any (fun p => p.1 = k) then
    m.map (fun p => if p.1 = k then (k, v) else p)
  else m ++ [(k, v)]

/-- `add_audio_hash` from `src/transcription_decoder.py` (lines 152-162):
append the hash to the ring (maxlen 10), store the result in the dict, and
when the dict exceeds 20 entries evict all but the 15 most recently
*first-inserted* keys (`list(keys())[:-15]`). -/
def add_audio_hash (st : DecoderState) (audio_hash : String)
    (transcription : TranscriptionResult) : DecoderState :=
  let hashes := keepLast 10 (st.chunk_hashes ++ [audio_hash])
  let m := dictUpdate st.hash_to_text audio_hash transcription
  let m := if 20 < m.length then m.drop (m.length - 15) else m
  { st with chunk_hashes := hashes, hash_to_text := m }

/-- The duplicate short-circuit at the top of `decode_output`:
`audio_hash` truthy, present in the ring, and mapped to a (necessarily
truthy) cached result. -/
def isDuplicateHash (st : DecoderState) (audio_hash : Option String) : Bool :=
  match audio_hash with
  | none => false
  | some h => h ≠ "" && st.chunk_hashes.contains h && (st.hash_to_text.lookup h).isSome

/-- `np.clip(v, -100, 100)`. -/
def clip100 (v : ℚ) : ℚ :=
  min 100 (max (-100) v)

/-- Numerically-safe column softmax: subtract the column max, clip to
`[-100, 100]`, exponentiate, normalise. -/
def softmaxCol (exp : ℚ → ℚ) (col : List ℚ) : List ℚ :=
  let m := col.foldl max (col.headD 0)
  let exps := col.map (fun v => exp (clip100 (v - m)))
  let s := exps.sum
  exps.map (fun e => e / s)

/-- `logits = output_tensor[0]`. -/
def logits_of (output_tensor : List (List (List ℚ))) : List (List ℚ) :=
  output_tensor.headD []

/-- The frame-indexed columns of the `[vocab, T]` logits. -/
def cols_of (output_tensor : List (List (List ℚ))) : List (List ℚ) :=
  (logits_of output_tensor).transpose

/-- Column softmax per frame. -/
def probs_of (exp : ℚ → ℚ) (output_tensor : List (List (List ℚ))) : List (List ℚ) :=
  (cols_of output_tensor).map (softmaxCol exp)

/-- `float(np.mean(probs[blank_id, :]))`: the mean over frames of the
blank token's softmax probability. -/
def avg_blank_prob (exp : ℚ → ℚ) (blank_id : ℕ)
    (output_tensor : List (List (List ℚ))) : ℚ :=
  let blanks := (probs_of exp output_tensor).map (fun col => col.getD blank_id 0)
  blanks.sum / (blanks.length : ℚ)

/-- `np.argmax` over a column: index of the first maximal entry. -/
def argmaxIdx (col : List ℚ) : ℕ :=
  (col.enum.foldl (fun best p => if p.2 > best.2 then p else best) (0, col.headD 0)).1

/-- Per-frame argmax token ids (`np.argmax(logits, axis=0)`). -/
def ids_of (output_tensor : List (List (List ℚ))) : List ℕ :=
  (cols_of output_tensor).map argmaxIdx

/-- `probs[tok, frame]` against the frame-indexed probability columns. -/
def probAt (probsCols : List (List ℚ)) (tok frame : ℕ) : ℚ :=
  (probsCols.getD frame []).getD tok 0

/-- One collapsed CTC run `(token_id, max confidence, start frame,
end frame exclusive)`. -/
structure RunTok where
  id : ℕ
  conf : ℚ
  start_frame : ℕ
  end_frame : ℕ
deriving DecidableEq, Repr

/-- `unique_consecutive_with_confidence`: walk the per-frame argmax ids
(paired with their frame index), skip blanks, and merge maximal runs of
equal ids, tracking the maximum per-run probability.  `cur` is the run
being accumulated. -/
def ctcCollapse (blank : ℕ) (prob : ℕ → ℕ → ℚ) :
    List (ℕ × ℕ) → Option RunTok → List RunTok
  | [], none => []
  | [], some r => [r]
  | (i, tok) :: rest, none =>
    if tok = blank then ctcCollapse blank prob rest none
    else ctcCollapse blank prob rest (some ⟨tok, prob tok i, i, i + 1⟩)
  | (i, tok) :: rest, some r =>
    if tok = r.id then
      ctcCollapse blank prob rest (some ⟨r.id, max r.conf (prob tok i), r.start_frame, i + 1⟩)
    else if tok = blank then r :: ctcCollapse blank prob rest none
    else r :: ctcCollapse blank prob rest (some ⟨tok, prob tok i, i, i + 1⟩)

/-- The collapsed token runs of a decode. -/
def collapsed_of (cfg : DecoderConfig) (exp : ℚ → ℚ)
    (output_tensor : List (List (List ℚ))) : List RunTok :=
  ctcCollapse cfg.blank_id (probAt (probs_of exp output_tensor))
    (ids_of output_tensor).enum none

/-- `text = self.sp.DecodeIds(ids_list).strip()`. -/
def raw_text_of (cfg : DecoderConfig) (sp : Tokenizer) (exp : ℚ → ℚ)
    (output_tensor : List (List (List ℚ))) : String :=
  trimStr (sp.decode_ids ((collapsed_of cfg exp output_tensor).map RunTok.id))

/-- The parsed metadata of a decode. -/
def metadata_of (cfg : DecoderConfig) (sp : Tokenizer) (exp : ℚ → ℚ)
    (output_tensor : List (List (List ℚ))) : SenseVoiceMetadata :=
  parse_sensevoice_tokens (raw_text_of cfg sp exp output_tensor)

/-- The tag-stripped clean text of a decode (before stitching). -/
def clean_text_of (cfg : DecoderConfig) (sp : Tokenizer) (exp : ℚ → ℚ)
    (output_tensor : List (List (List ℚ))) : String :=
  (metadata_of cfg sp exp output_tensor).text

/-- A character matched by the content-gate regex `[A-Za-z0-9]`. -/
def isAsciiAlnum (c : Char) : Bool :=
  ('A' ≤ c && c ≤ 'Z') || ('a' ≤ c && c ≤ 'z') || ('0' ≤ c && c ≤ '9')

/-- `len(re.findall(r"[A-Za-z0-9]", text))`. -/
def countAlnum (s : String) : ℕ :=
  (s.data.filter isAsciiAlnum).length

/-- `float(np.mean(xs))` (of a nonempty list). -/
def meanQ (xs : List ℚ) : ℚ :=
  xs.sum / (xs.length : ℚ)

/-- The tail/head similarity probed at overlap length `k` during
confidence stitching: last `k` stored tail words against first `k`
current words, lowercased and space-joined. -/
def stitch_sim (prev_words current_words : List String) (k : ℕ) : ℚ :=
  levenshtein_similarity
    (lowerStr (joinSpace (pyTailSlice k prev_words)))
    (lowerStr (joinSpace (current_words.take k)))

/-- The `for overlap_len in range(max_overlap, 0, -1)` loop of
`_apply_confidence_stitching`: `some` is an early `return`, `none` means
the loop fell through. -/
def stitchLoop (cfg : DecoderConfig) (prev_words current_words : List String)
    (prev_confidence current_confidence : ℚ) (current_text : String) :
    ℕ → Option String
  | 0 => none
  | k + 1 =>
    if stitch_sim prev_words current_words (k + 1) ≥ 7/10 then
      some (if prev_confidence < cfg.confidence_threshold then
              joinSpace (current_words.drop (k + 1))
            else if current_confidence < cfg.confidence_threshold then
              current_text
            else
              current_text)
    else stitchLoop cfg prev_words current_words prev_confidence current_confidence
      current_text k

/-- `_apply_confidence_stitching` from `src/transcription_decoder.py`
(lines 419-471). -/
def apply_confidence_stitching (cfg : DecoderConfig) (tail : ChunkTail)
    (current_text : String) (current_confidence : ℚ) : String :=
  let prev_confidence := tail.confidence
  let prev_words := tail.words
  let current_words := splitWs current_text
  if current_words = [] then current_text
  else
    let max_overlap := min prev_words.length current_words.length
    match stitchLoop cfg prev_words current_words prev_confidence current_confidence
        current_text max_overlap with
    | some t => t
    | none => current_text

/-- The stitching step of `decode_output` (lines 283-284): applied only
when stitching is enabled and a previous tail is stored. -/
def stitchStep (cfg : DecoderConfig) (prev_tail : Option ChunkTail)
    (text_clean : String) (avg_confidence : ℚ) : String :=
  if cfg.enable_confidence_stitching then
    match prev_tail with
    | some tail => apply_confidence_stitching cfg tail text_clean avg_confidence
    | none => text_clean
  else text_clean

/-- `_store_chunk_tail` from `src/transcription_decoder.py`
(lines 401-417). -/
def store_chunk_tail (cfg : DecoderConfig) (text : String) (confidence : ℚ) :
    ChunkTail :=
  let words := splitWs text
  if cfg.overlap_word_count ≤ words.length then
    let tail_words := pyTailSlice cfg.overlap_word_count words
    { text := joinSpace tail_words, confidence := confidence, words := tail_words }
  else
    { text := text, confidence := confidence, words := words }

/-- A token with its piece text and millisecond timing
(`tokens_with_timing` entries). -/
structure TokenInfo where
  token_id : ℕ
  token_text : String
  start_ms : ℚ
  end_ms : ℚ
  confidence : ℚ
deriving DecidableEq, Repr

/-- `token_text.startswith('▁')`. -/
def isWordStart (s : String) : Bool :=
  match s.data with
  | '▁' :: _ => true
  | _ => false

/-- Accumulator of `_tokens_to_words_with_timestamps`. -/
structure WordAcc where
  tokens : List String
  start_ms : Option ℚ
  end_ms : Option ℚ
  confs : List ℚ

/-- Finalize the current word: join the pieces, turn `▁` into spaces,
strip; emit only a nonempty word with both timestamps set. -/
def flushWord (acc : WordAcc) : List Word :=
  if acc.tokens = [] then []
  else
    let word_text := trimStr (String.mk
      (((acc.tokens.map String.data).flatten).map (fun ch => if ch = '▁' then ' ' else ch)))
    match acc.start_ms, acc.end_ms with
    | some s, some e =>
      if word_text ≠ "" then
        [{ word := word_text, start_ms := s, end_ms := e, confidence := meanQ acc.confs }]
      else []
    | _, _ => []

/-- The token loop of `_tokens_to_words_with_timestamps`. -/
def wordsLoop : List TokenInfo → WordAcc → List Word
  | [], acc => flushWord acc
  | t :: rest, acc =>
    if isWordStart t.token_text then
      flushWord acc ++ wordsLoop rest
        { tokens := [t.token_text], start_ms := some t.start_ms,
          end_ms := some t.end_ms, confs := [t.confidence] }
    else
      wordsLoop rest
        { tokens := acc.tokens ++ [t.token_text],
          start_ms := match acc.start_ms with
            | none => some t.start_ms
            | some s => some s,
          end_ms := some t.end_ms,
          confs := acc.confs ++ [t.confidence] }

/-- `_tokens_to_words_with_timestamps` from `src/transcription_decoder.py`
(lines 339-399). -/
def tokens_to_words_with_timestamps (tokens_with_timing : List TokenInfo) : List Word :=
  wordsLoop tokens_with_timing { tokens := [], start_ms := none, end_ms := none, confs := [] }

/-- `frame_duration_ms = 31.25`. -/
def frame_duration_ms : ℚ := 125/4

/-- `decode_output` from `src/transcription_decoder.py` (lines 164-337),
with `now = time.time()` and `np.exp` passed explicitly.  Returns the
optional result and the updated decoder state.  The `[1, V, T]` shape
check (`ndim == 3`) is carried by the type of `output_tensor`. -/
def decode_output (cfg : DecoderConfig) (sp : Tokenizer) (exp : ℚ → ℚ)
    (st : DecoderState) (output_tensor : List (List (List ℚ)))
    (audio_hash : Option String) (now : ℚ) :
    Option TranscriptionResult × DecoderState :=
  if isDuplicateHash st audio_hash then (none, st)
  else if avg_blank_prob exp cfg.blank_id output_tensor > 97/100 then (none, st)
  else
    let collapsed := collapsed_of cfg exp output_tensor
    if collapsed = [] then (none, st)
    else
      let avg_confidence := meanQ (collapsed.map RunTok.conf)
      let tokens_with_timing : List TokenInfo := collapsed.map (fun r =>
        { token_id := r.id, token_text := sp.id_to_piece r.id,
          start_ms := (r.start_frame : ℚ) * frame_duration_ms,
          end_ms := (r.end_frame : ℚ) * frame_duration_ms,
          confidence := r.conf })
      let metadata := metadata_of cfg sp exp output_tensor
      let text_clean := metadata.text
      if countAlnum text_clean < cfg.min_chars then (none, st)
      else
        let text_clean := stitchStep cfg st.prev_chunk_tail text_clean avg_confidence
        let st := if cfg.enable_confidence_stitching then
            { st with prev_chunk_tail := some (store_chunk_tail cfg text_clean avg_confidence) }
          else st
        if st.last_texts.any (fun prev_text =>
            levenshtein_similarity (lowerStr text_clean) (lowerStr prev_text)
                ≥ cfg.similarity_threshold
              ∧ now - st.last_emit_ts < cfg.duplicate_cooldown_s) then
          (none, st)
        else
          let st := { st with
            last_texts := keepLast 6 (st.last_texts ++ [text_clean]),
            last_emit_ts := now }
          let words_with_timing := tokens_to_words_with_timestamps tokens_with_timing
          (some { text := text_clean,
                  words := words_with_timing,
                  language := metadata.language,
                  emotion := metadata.emotion,
                  audio_events := metadata.audio_events,
                  raw_text := metadata.raw_text,
                  has_itn := metadata.has_itn,
                  confidence := avg_confidence }, st)

/-! ## TimelineMerger (src/timeline_merger.py)

`merge_chunk` folds over the incoming words; `last_emit_time_ms` is only
ever raised (via `max`) when a word is appended as new content.
`_try_replace_overlapping_word` scans the timeline from newest to oldest
and replaces, in place, the first entry that both overlaps in time and is
beaten by more than `overlap_confidence_threshold`; it does *not* touch
`new_words` (despite the comment in `merge_chunk` claiming otherwise). -/

namespace TimelineMerger

/-- Configuration fields read in `TimelineMerger.__init__`. -/
structure Config where
  overlap_confidence_threshold : ℚ
  min_word_confidence : ℚ
  enable_confidence_replacement : Bool
deriving DecidableEq, Repr

/-- Mutable state: `global_timeline` and `last_emit_time_ms`. -/
structure State where
  global_timeline : List Word
  last_emit_time_ms : ℚ
deriving DecidableEq, Repr

/-- The backward scan of `_try_replace_overlapping_word`, expressed on the
reversed timeline (newest first): returns the reversed timeline with the
first qualifying entry replaced, or `none`. -/
def tryReplaceRev (cfg : Config) (new_word : String)
    (start_ms end_ms new_confidence : ℚ) : List Word → Option (List Word)
  | [] => none
  | w :: rest =>
    if w.start_ms < end_ms ∧ w.end_ms > start_ms ∧
        new_confidence > w.confidence + cfg.overlap_confidence_threshold then
      some ({ word := new_word, start_ms := start_ms, end_ms := end_ms,
              confidence := new_confidence } :: rest)
    else (tryReplaceRev cfg new_word start_ms end_ms new_confidence rest).map (w :: ·)

/-- `_try_replace_overlapping_word` (lines 108-138): `some timeline'` when
a replacement happened (the Python method returns `True` after mutating
`self.global_timeline[i]`), `none` otherwise. -/
def try_replace_overlapping_word (cfg : Config) (timeline : List Word)
    (new_word : String) (start_ms end_ms new_confidence : ℚ) : Option (List Word) :=
  (tryReplaceRev cfg new_word start_ms end_ms new_confidence timeline.reverse).map
    List.reverse

/-- One iteration of the `for word_info in words_with_timing` loop of
`merge_chunk`; the accumulator carries `(new_words, state)`. -/
def mergeStep (cfg : Config) (chunk_offset_ms : ℚ)
    (acc : List Word × State) (word_info : Word) : List Word × State :=
  let global_start_ms := chunk_offset_ms + word_info.start_ms
  let global_end_ms := chunk_offset_ms + word_info.end_ms
  let word_confidence := word_info.confidence
  let word_text := word_info.word
  let st := acc.2
  if word_confidence < cfg.min_word_confidence then acc
  else if global_end_ms ≤ st.last_emit_time_ms then acc
  else if global_start_ms < st.last_emit_time_ms ∧
      st.last_emit_time_ms < global_end_ms then
    if cfg.enable_confidence_replacement then
      match try_replace_overlapping_word cfg st.global_timeline word_text
          global_start_ms global_end_ms word_confidence with
      | some timeline => (acc.1, { st with global_timeline := timeline })
      | none => acc
    else acc
  else if st.last_emit_time_ms ≤ global_start_ms then
    let new_word : Word :=
      { word := word_text, start_ms := global_start_ms,
        end_ms := global_end_ms, confidence := word_confidence }
    (acc.1 ++ [new_word],
     { global_timeline := st.global_timeline ++ [new_word],
       last_emit_time_ms := max st.last_emit_time_ms global_end_ms })
  else acc

/-- `merge_chunk` (lines 35-106): returns the list of new words to emit
and the updated merger state. -/
def merge_chunk (cfg : Config) (st : State) (words_with_timing : List Word)
    (chunk_offset_ms : ℚ) : List Word × State :=
  if words_with_timing = [] then ([], st)
  else words_with_timing.foldl (mergeStep cfg chunk_offset_ms) ([], st)

end TimelineMerger

/-! ## AudioProcessor VAD (src/audio_processor.py)

`is_speech_segment` with `np.sqrt` and the FFT-based spectral entropy as
opaque function parameters (the short-circuit of interest never evaluates
the entropy).  Audio is the 16 kHz float window, so the `int16` scaling
branch of the helpers is not taken. -/

namespace AudioProcessor

/-- The configuration read by the VAD (`self.config` values and the
`__init__` fields; `vad_energy_threshold` is set to `0.01` there and never
reassigned). -/
structure Config where
  rms_margin : ℚ
  vad_energy_threshold : ℚ
  vad_zcr_min : ℚ
  vad_zcr_max : ℚ
  vad_entropy_max : ℚ
  vad_mode : String
deriving DecidableEq, Repr

/-- The VAD metrics dict. -/
structure VadMetrics where
  rms : ℚ
  zcr : ℚ
  spectral_entropy : ℚ
  is_speech : Bool
  energy_check : Bool
  zcr_check : Bool
  entropy_check : Bool
deriving DecidableEq, Repr

/-- `calculate_rms`: `sqrt(mean(x^2) + 1e-12)`. -/
def calculate_rms (sqrtFn : ℚ → ℚ) (audio_data : List ℚ) : ℚ :=
  sqrtFn ((audio_data.map (fun v => v * v)).sum / (audio_data.length : ℚ) + 1/10^12)

/-- `calculate_zero_crossing_rate`: sign changes between adjacent samples
over the total length. -/
def calculate_zero_crossing_rate (audio_data : List ℚ) : ℚ :=
  if audio_data.length < 2 then 0
  else
    let crossings := ((audio_data.zip audio_data.tail).filter
      (fun p => p.1 * p.2 < 0)).length
    (crossings : ℚ) / (audio_data.length : ℚ)

/-- The energy threshold used by `is_speech_segment`: adaptive
(`noise_floor + rms_margin`) when a floor is available, else the static
`vad_energy_threshold`. -/
def energy_threshold (cfg : Config) (noise_floor : Option ℚ) : ℚ :=
  match noise_floor with
  | some f => f + cfg.rms_margin
  | none => cfg.vad_energy_threshold

/-- The metrics dict returned by the low-energy short-circuit: ZCR and
entropy carry the untouched sentinels `0.0` and `1.0`. -/
def lowEnergyMetrics (rms : ℚ) : VadMetrics :=
  { rms := rms, zcr := 0, spectral_entropy := 1, is_speech := false,
    energy_check := false, zcr_check := false, entropy_check := false }

/-- `is_speech_segment` from `src/audio_processor.py` (lines 267-334). -/
def is_speech_segment (cfg : Config) (sqrtFn : ℚ → ℚ)
    (entropyFn : List ℚ → ℚ) (audio_data : List ℚ) (noise_floor : Option ℚ) :
    Bool × VadMetrics :=
  let rms := calculate_rms sqrtFn audio_data
  let energy_check := rms > energy_threshold cfg noise_floor
  if ¬ energy_check then (false, lowEnergyMetrics rms)
  else
    let zcr := calculate_zero_crossing_rate audio_data
    let zcr_check := cfg.vad_zcr_min < zcr ∧ zcr < cfg.vad_zcr_max
    if cfg.vad_mode = "fast" then
      let is_speech := energy_check ∧ zcr_check
      (is_speech,
       { rms := rms, zcr := zcr, spectral_entropy := -1, is_speech := is_speech,
         energy_check := energy_check, zcr_check := zcr_check, entropy_check := true })
    else
      let spectral_entropy := entropyFn audio_data
      let entropy_check := spectral_entropy < cfg.vad_entropy_max
      let is_speech := energy_check ∧ (zcr_check ∨ entropy_check)
      (is_speech,
       { rms := rms, zcr := zcr, spectral_entropy := spectral_entropy,
         is_speech := is_speech, energy_check := energy_check,
         zcr_check := zcr_check, entropy_check := entropy_check })

end AudioProcessor

/-! ## LanguageLockManager (src/language_lock_manager.py)

State-passing embedding of `record_detection` / `_check_lock_conditions`,
with `time.time()` supplied as `now`.  In Python, `not self.warmup_start`
is a `None`-check in every reachable state (timestamps are positive);
it is modelled as an `Option` check. -/

namespace LanguageLockManager

/-- The fields of `LanguageLockManager` (configuration values bound in
`__init__` plus the mutable state). -/
structure State where
  enabled : Bool
  initial_language : String
  warmup_duration : ℚ
  min_samples : ℕ
  confidence_threshold : ℚ
  current_language : String
  locked : Bool
  warmup_start : Option ℚ
  detections : List String
deriving DecidableEq, Repr

/-- `LANGUAGE_CODE_MAP`. -/
def LANGUAGE_CODE_MAP : List (String × String) :=
  [("Chinese", "zh"), ("English", "en"), ("Japanese", "ja"),
   ("Korean", "ko"), ("Cantonese", "yue")]

/-- `start_warmup`. -/
def start_warmup (st : State) (now : ℚ) : State :=
  if st.enabled ∧ ¬ st.locked ∧ st.warmup_start = none then
    { st with warmup_start := some now }
  else st

/-- `Counter(detections).most_common(1)[0]`: the first-seen key with the
maximal count (`none` only for an empty list). -/
def mostCommon (detections : List String) : Option (String × ℕ) :=
  let keys := detections.foldl (fun acc x => if x ∈ acc then acc else acc ++ [x]) []
  keys.foldl (fun best k =>
    let cnt := detections.count k
    match best with
    | none => some (k, cnt)
    | some b => if cnt > b.2 then some (k, cnt) else some b) none

/-- `_check_lock_conditions` (lines 86-120). -/
def check_lock_conditions (st : State) (now : ℚ) : State :=
  if st.locked ∨ st.warmup_start = none then st
  else
    match st.warmup_start with
    | none => st
    | some ws =>
      if now - ws < st.warmup_duration then st
      else if st.detections.length < st.min_samples then { st with locked := true }
      else
        match mostCommon st.detections with
        | none => st
        | some (most_common_lang, count) =>
          if (count : ℚ) / (st.detections.length : ℚ) ≥ st.confidence_threshold then
            { st with current_language := most_common_lang, locked := true }
          else { st with locked := true }

/-- `record_detection` (lines 61-84). -/
def record_detection (st : State) (language_name : String) (now : ℚ) : State :=
  if ¬ st.enabled ∨ st.locked then st
  else
    let st := if st.warmup_start = none then start_warmup st now else st
    match LANGUAGE_CODE_MAP.lookup language_name with
    | none => st
    | some lang_code =>
      check_lock_conditions { st with detections := st.detections ++ [lang_code] } now

end LanguageLockManager

/-! ## PipelineOrchestrator (src/pipeline_orchestrator.py)

The lifecycle claim is about the order in which `start()` brings the
components up, so the embedding records the startup sequence by component
name: `start()` first starts the async emitter, then iterates
`self.stages = [preprocessing, inference, postprocessing]` in list order
(the names are the ones each stage passes to `PipelineStage.__init__`). -/

namespace PipelineOrchestrator

/-- `self.stages` in construction order (lines 119-124). -/
def stages : List String :=
  ["Preprocessing", "Inference", "Postprocessing"]

/-- The order in which `start()` (lines 128-158) starts the components:
the async emitter first, then each stage of `self.stages` in order. -/
def startOrder : List String :=
  "AsyncEmitter" :: stages

/-- `stop()` (lines 160-175) stops the stages in reverse order and the
emitter last. -/
def stopOrder : List String :=
  stages.reverse ++ ["AsyncEmitter"]

end PipelineOrchestrator


/-! ## Concrete fixtures

Concrete configurations, states and inputs used to witness the theorems
below on closed instances.  `demo_config` carries the repository's
default decoder configuration (`min_chars = 3`,
`similarity_threshold = 0.85`, `duplicate_cooldown_s = 4.0`, stitching
enabled with threshold `0.6` and overlap word count `4`, `blank_id = 0`).
`demo_exp` is a stand-in for `np.exp` (its values are irrelevant to the
gates being exercised); `demo_tensor` is a `[1, 2, 2]` logits tensor whose
argmax rows select token `1` on both frames. -/

/-- Default decoder configuration. -/
def demo_config : DecoderConfig :=
  { min_chars := 3, similarity_threshold := 17/20, duplicate_cooldown_s := 4,
    enable_confidence_stitching := true, confidence_threshold := 3/5,
    overlap_word_count := 4, blank_id := 0 }

/-- A concrete stand-in for the opaque SentencePiece tokenizer. -/
def demo_tokenizer : Tokenizer :=
  { decode_ids := fun _ => "<|en|>hello world", id_to_piece := fun _ => "▁hello" }

/-- A tokenizer whose decoded text is entirely non-ASCII (Chinese). -/
def cjk_tokenizer : Tokenizer :=
  { decode_ids := fun _ => "你好吗你好吗你好吗", id_to_piece := fun _ => "▁你" }

/-- A concrete stand-in for `np.exp` (any function works for the
properties proved here). -/
def demo_exp : ℚ → ℚ := fun q => if q < 0 then 1/2 else 1

/-- A fresh decoder state (`TranscriptionDecoder.__init__`). -/
def init_decoder_state : DecoderState :=
  { last_texts := [], last_emit_ts := 0, chunk_hashes := [],
    hash_to_text := [], prev_chunk_tail := none }

/-- A decoder state mid-session: two earlier short texts, last emission at
`t = 0`. -/
def demo_state : DecoderState :=
  { last_texts := ["abc", "xyz"], last_emit_ts := 0, chunk_hashes := [],
    hash_to_text := [], prev_chunk_tail := none }

/-- `[1, 2, 2]` logits: blank row `[0, 0]`, token-1 row `[1, 1]`. -/
def demo_tensor : List (List (List ℚ)) := [[[0, 0], [1, 1]]]

/-- `[1, 1, 2]` logits with only the blank row: the blank softmax
probability is `1` on both frames. -/
def blank_tensor : List (List (List ℚ)) := [[[0, 0]]]

/-- A stored transcription result, as cached by `add_audio_hash`. -/
def demo_result : TranscriptionResult :=
  { text := "hello world", words := [], language := some "English",
    emotion := none, audio_events := [], raw_text := "<|en|>hello world",
    has_itn := false, confidence := 2/3 }

/-- A session's worth of `add_audio_hash` calls: hash `h` is recorded,
falls out of the 10-ring under `x1..x11`, is re-recorded (its dict
insertion position is *not* refreshed), then `y1..y9` arrive.  On `y9` the
dict exceeds 20 entries and evicts its 6 oldest positions including `h`,
while `h` is still among the 10 most recent ring entries. -/
def hash_trace : List String :=
  ["h", "x1", "x2", "x3", "x4", "x5", "x6", "x7", "x8", "x9", "x10", "x11",
   "h", "y1", "y2", "y3", "y4", "y5", "y6", "y7", "y8", "y9"]

/-- The decoder state after the above trace (only the hash ring and the
hash map evolve through `add_audio_hash`). -/
def traced_state : DecoderState :=
  hash_trace.foldl (fun s k => add_audio_hash s k demo_result) demo_state

/-! ## Proof development -/

theorem levDist_nil_left (ys : List Char) : levDist [] ys = ys.length := by
  induction ys with
  | nil => simp [levDist]
  | cons y ys ih =>
    simp [levDist, Levenshtein.defaultCost] at ih ⊢
    omega

theorem levDist_nil_right (xs : List Char) : levDist xs [] = xs.length := by
  induction xs with
  | nil => simp [levDist]
  | cons x xs ih =>
    simp [levDist, Levenshtein.defaultCost] at ih ⊢
    omega

theorem levDist_cons_cons (x y : Char) (xs ys : List Char) :
    levDist (x :: xs) (y :: ys) =
      min (levDist xs (y :: ys) + 1)
        (min (levDist (x :: xs) ys + 1)
          (levDist xs ys + if x = y then 0 else 1)) := by
  simp [levDist, levenshtein_cons_cons, Levenshtein.defaultCost]
  omega

theorem ldist_nil_left (ys : List Char) : ldist [] ys = ys.length := by
  simp [ldist, levDist_nil_left]

theorem ldist_nil_right (xs : List Char) : ldist xs [] = xs.length := by
  simp [ldist, levDist_nil_right]

/-- The snoc-recurrence for `ldist`, which is exactly the cons-recurrence
of `levDist` read through the reversal. -/
theorem ldist_append_append (c y : Char) (p q : List Char) :
    ldist (p ++ [c]) (q ++ [y]) =
      min (ldist p (q ++ [y]) + 1)
        (min (ldist (p ++ [c]) q + 1)
          (ldist p q + if c = y then 0 else 1)) := by
  simp only [ldist, List.reverse_append, List.reverse_cons, List.reverse_nil,
    List.nil_append, List.singleton_append]
  exact levDist_cons_cons c y p.reverse q.reverse


theorem prevSpec_cons (f : List Char → ℕ) (q : List Char) (y : Char) (ys : List Char) :
    prevSpec f q (y :: ys) = f q :: prevSpec f (q ++ [y]) ys := by
  simp [prevSpec, rowSpec]

theorem rowSpec_congr {f g : List Char → ℕ} (h : ∀ r, f r = g r) :
    ∀ q ys, rowSpec f q ys = rowSpec g q ys := by
  intro q ys
  induction ys generalizing q with
  | nil => simp [rowSpec]
  | cons y ys ih => simp [rowSpec, h, ih]

theorem prevSpec_congr {f g : List Char → ℕ} (h : ∀ r, f r = g r)
    (q ys : List Char) : prevSpec f q ys = prevSpec g q ys := by
  simp [prevSpec, h, rowSpec_congr h]

/-- The initial row `list(range(len2 + 1))` is the row of distances from
the empty prefix. -/
theorem prevSpec_length_eq_range' (ys q : List Char) :
    prevSpec (fun r => r.length) q ys = List.range' q.length (ys.length + 1) := by
  induction ys generalizing q with
  | nil => simp [prevSpec, rowSpec, List.range']
  | cons y ys ih =>
    rw [prevSpec_cons, ih]
    simp [List.range'_succ]

/-- The last entry of a DP row is the distance at the full second string. -/
theorem prevSpec_getD_last (f : List Char → ℕ) (q ys : List Char) :
    (prevSpec f q ys).getD ys.length 0 = f (q ++ ys) := by
  induction ys generalizing q with
  | nil => simp [prevSpec, rowSpec]
  | cons y ys ih =>
    rw [prevSpec_cons]
    simpa using ih (q ++ [y])

/-- Correctness of the inner DP loop: fed the previous row for the
processed prefix `p` of `s1`, it produces the row for `p ++ [c]`. -/
theorem levRowAux_correct (c : Char) (p : List Char) :
    ∀ (ys q : List Char) (last : ℕ), last = ldist (p ++ [c]) q →
      levRowAux c ys (prevSpec (fun r => ldist p r) q ys) last =
        rowSpec (fun r => ldist (p ++ [c]) r) q ys := by
  intro ys
  induction ys with
  | nil => intro q last _; simp [prevSpec, rowSpec, levRowAux]
  | cons y ys ih =>
    intro q last hlast
    rw [prevSpec_cons]
    have hv : min (ldist p (q ++ [y]) + 1)
        (min (last + 1) (ldist p q + if c = y then 0 else 1)) =
        ldist (p ++ [c]) (q ++ [y]) := by
      rw [hlast, ldist_append_append]
    calc levRowAux c (y :: ys) (ldist p q :: prevSpec (fun r => ldist p r) (q ++ [y]) ys) last
        = (ldist (p ++ [c]) (q ++ [y])) ::
            levRowAux c ys (prevSpec (fun r => ldist p r) (q ++ [y]) ys)
              (ldist (p ++ [c]) (q ++ [y])) := by
          simp only [levRowAux, prevSpec, rowSpec, List.headD_cons]
          rw [← hv]
      _ = ldist (p ++ [c]) (q ++ [y]) :: rowSpec (fun r => ldist (p ++ [c]) r) (q ++ [y]) ys :=
          congrArg _ (ih (q ++ [y]) _ rfl)
      _ = rowSpec (fun r => ldist (p ++ [c]) r) q (y :: ys) := by simp [rowSpec]

/-- Correctness of the outer DP loop. -/
theorem levLoop_correct (s2 : List Char) :
    ∀ (cs p : List Char),
      levLoop s2 cs p.length (prevSpec (fun r => ldist p r) [] s2) =
        prevSpec (fun r => ldist (p ++ cs) r) [] s2 := by
  intro cs
  induction cs with
  | nil => intro p; simp [levLoop]
  | cons c cs ih =>
    intro p
    have hrow : levRowAux c s2 (prevSpec (fun r => ldist p r) [] s2) (p.length + 1) =
        rowSpec (fun r => ldist (p ++ [c]) r) [] s2 := by
      apply levRowAux_correct
      simp [ldist_nil_right]
    have hhead : p.length + 1 = ldist (p ++ [c]) [] := by simp [ldist_nil_right]
    calc levLoop s2 (c :: cs) p.length (prevSpec (fun r => ldist p r) [] s2)
        = levLoop s2 cs (p.length + 1)
            ((p.length + 1) :: rowSpec (fun r => ldist (p ++ [c]) r) [] s2) := by
          simp only [levLoop, hrow]
      _ = levLoop s2 cs (p ++ [c]).length (prevSpec (fun r => ldist (p ++ [c]) r) [] s2) := by
          simp [prevSpec, ldist_nil_right]
      _ = prevSpec (fun r => ldist ((p ++ [c]) ++ cs) r) [] s2 := ih (p ++ [c])
      _ = prevSpec (fun r => ldist (p ++ (c :: cs)) r) [] s2 := by
          simp

/-- The DP of `levenshtein_similarity` computes the Levenshtein distance
of the reversed inputs. -/
theorem levLoop_getD (l1 l2 : List Char) :
    (levLoop l2 l1 0 (List.range (l2.length + 1))).getD l2.length 0 = ldist l1 l2 := by
  have hinit : List.range (l2.length + 1) = prevSpec (fun r => ldist [] r) [] l2 := by
    rw [prevSpec_congr (g := fun r => r.length) (fun r => ldist_nil_left r)]
    rw [prevSpec_length_eq_range' l2 []]
    simp [List.range_eq_range']
  have h := levLoop_correct l2 l1 []
  simp only [List.length_nil, List.nil_append] at h
  rw [hinit, h, prevSpec_getD_last]
  simp


theorem levDist_def (xs ys : List Char) :
    levDist xs ys = levenshtein Levenshtein.defaultCost xs ys := rfl

attribute [irreducible] levDist

theorem levDist_singleton_left (c : Char) :
    ∀ zs : List Char, levDist [c] zs = if c ∈ zs then zs.length - 1 else max zs.length 1 := by
  intro zs
  induction zs with
  | nil => simp [levDist_nil_right]
  | cons z zs ih =>
    rw [levDist_cons_cons, levDist_nil_left, levDist_nil_left, ih]
    by_cases hmem : c ∈ zs
    · have h1 : 1 ≤ zs.length := List.length_pos.mpr (List.ne_nil_of_mem hmem)
      have hmem2 : c ∈ z :: zs := List.mem_cons_of_mem z hmem
      rw [if_pos hmem, if_pos hmem2]
      by_cases hcz : c = z
      · rw [if_pos hcz]; simp only [List.length_cons]; omega
      · rw [if_neg hcz]; simp only [List.length_cons]; omega
    · rw [if_neg hmem]
      by_cases hcz : c = z
      · have hmem2 : c ∈ z :: zs := by rw [hcz]; exact List.mem_cons_self z zs
        rw [if_pos hmem2, if_pos hcz]
        simp only [List.length_cons]; omega
      · have hmem2 : ¬ c ∈ z :: zs := by
          intro h
          rcases List.mem_cons.mp h with h | h
          · exact hcz h
          · exact hmem h
        rw [if_neg hmem2, if_neg hcz]
        simp only [List.length_cons]; omega

theorem levDist_singleton_right (d : Char) :
    ∀ zs : List Char, levDist zs [d] = if d ∈ zs then zs.length - 1 else max zs.length 1 := by
  intro zs
  induction zs with
  | nil => simp [levDist_nil_left]
  | cons z zs ih =>
    rw [levDist_cons_cons, levDist_nil_right, levDist_nil_right, ih]
    by_cases hmem : d ∈ zs
    · have h1 : 1 ≤ zs.length := List.length_pos.mpr (List.ne_nil_of_mem hmem)
      have hmem2 : d ∈ z :: zs := List.mem_cons_of_mem z hmem
      rw [if_pos hmem, if_pos hmem2]
      by_cases hzd : z = d
      · rw [if_pos hzd]; simp only [List.length_cons]; omega
      · rw [if_neg hzd]; simp only [List.length_cons]; omega
    · rw [if_neg hmem]
      by_cases hzd : z = d
      · have hmem2 : d ∈ z :: zs := by rw [← hzd]; exact List.mem_cons_self z zs
        rw [if_pos hmem2, if_pos hzd]
        simp only [List.length_cons]; omega
      · have hmem2 : ¬ d ∈ z :: zs := by
          intro h
          rcases List.mem_cons.mp h with h | h
          · exact hzd h.symm
          · exact hmem h
        rw [if_neg hmem2, if_neg hzd]
        simp only [List.length_cons]; omega

/-- The snoc-recurrence for the Levenshtein distance itself (the key step
in proving that it is invariant under reversal). -/
theorem levDist_snoc_snoc (c y : Char) :
    ∀ (n : ℕ) (xs ys : List Char), xs.length + ys.length = n →
      levDist (xs ++ [c]) (ys ++ [y]) =
        min (levDist xs (ys ++ [y]) + 1)
          (min (levDist (xs ++ [c]) ys + 1)
            (levDist xs ys + if c = y then 0 else 1)) := by
  intro n
  induction n using Nat.strong_induction_on with
  | _ n ih =>
    intro xs ys hlen
    match xs, ys with
    | [], ys =>
      simp only [List.nil_append]
      rw [levDist_singleton_left, levDist_singleton_left, levDist_nil_left, levDist_nil_left]
      simp only [List.length_append, List.length_singleton, List.length_cons, List.length_nil]
      by_cases hmem : c ∈ ys
      · have h1 : 1 ≤ ys.length := List.length_pos.mpr (List.ne_nil_of_mem hmem)
        have hmem2 : c ∈ ys ++ [y] := List.mem_append_left _ hmem
        rw [if_pos hmem, if_pos hmem2]
        by_cases hcy : c = y
        · rw [if_pos hcy]; omega
        · rw [if_neg hcy]; omega
      · rw [if_neg hmem]
        by_cases hcy : c = y
        · have hmem2 : c ∈ ys ++ [y] := by
            rw [hcy]; exact List.mem_append_right _ (List.mem_singleton_self y)
          rw [if_pos hmem2, if_pos hcy]; omega
        · have hmem2 : ¬ c ∈ ys ++ [y] := by
            intro h
            rcases List.mem_append.mp h with h | h
            · exact hmem h
            · exact hcy (List.mem_singleton.mp h)
          rw [if_neg hmem2, if_neg hcy]; omega
    | x :: xs', [] =>
      simp only [List.nil_append]
      rw [levDist_singleton_right, levDist_singleton_right, levDist_nil_right, levDist_nil_right]
      simp only [List.length_append, List.length_singleton, List.length_cons, List.length_nil]
      by_cases hmem : y ∈ x :: xs'
      · have hmem2 : y ∈ (x :: xs') ++ [c] := List.mem_append_left _ hmem
        rw [if_pos hmem, if_pos hmem2]
        by_cases hcy : c = y
        · rw [if_pos hcy]; omega
        · rw [if_neg hcy]; omega
      · rw [if_neg hmem]
        by_cases hcy : c = y
        · have hmem2 : y ∈ (x :: xs') ++ [c] := by
            rw [← hcy]; exact List.mem_append_right _ (List.mem_singleton_self c)
          rw [if_pos hmem2, if_pos hcy]; omega
        · have hmem2 : ¬ y ∈ (x :: xs') ++ [c] := by
            intro h
            rcases List.mem_append.mp h with h | h
            · exact hmem h
            · exact hcy (List.mem_singleton.mp h).symm
          rw [if_neg hmem2, if_neg hcy]; omega
    | x :: xs', b :: ys' =>
      simp only [List.length_cons] at hlen
      have h1 := ih (xs'.length + (b :: ys').length) (by simp only [List.length_cons]; omega)
        xs' (b :: ys') rfl
      have h2 := ih ((x :: xs').length + ys'.length) (by simp only [List.length_cons]; omega)
        (x :: xs') ys' rfl
      have h3 := ih (xs'.length + ys'.length) (by omega) xs' ys' rfl
      have hL := levDist_cons_cons x b (xs' ++ [c]) (ys' ++ [y])
      have hR1 := levDist_cons_cons x b xs' (ys' ++ [y])
      have hR2 := levDist_cons_cons x b (xs' ++ [c]) ys'
      have hR3 := levDist_cons_cons x b xs' ys'
      simp only [List.cons_append] at h1 h2 h3 hL hR1 hR2 hR3 ⊢
      rw [hL, h1, h2, h3, hR1, hR2, hR3]
      simp only [← min_add_add_right, le_antisymm_iff, le_min_iff, min_le_iff]
      and_intros <;> omega

/-- The Levenshtein distance is invariant under reversing both inputs. -/
theorem levDist_reverse :
    ∀ (n : ℕ) (xs ys : List Char), xs.length + ys.length = n →
      levDist xs.reverse ys.reverse = levDist xs ys := by
  intro n
  induction n using Nat.strong_induction_on with
  | _ n ih =>
    intro xs ys hlen
    match xs, ys with
    | [], ys => simp [levDist_nil_left]
    | x :: xs', [] => simp [levDist_nil_right]
    | x :: xs', y :: ys' =>
      simp only [List.length_cons] at hlen
      have hsnoc := levDist_snoc_snoc x y (xs'.reverse.length + ys'.reverse.length)
        xs'.reverse ys'.reverse rfl
      have e1 : levDist xs'.reverse (ys'.reverse ++ [y]) = levDist xs' (y :: ys') := by
        have := ih (xs'.length + (y :: ys').length) (by simp only [List.length_cons]; omega)
          xs' (y :: ys') rfl
        simpa using this
      have e2 : levDist (xs'.reverse ++ [x]) ys'.reverse = levDist (x :: xs') ys' := by
        have := ih ((x :: xs').length + ys'.length) (by simp only [List.length_cons]; omega)
          (x :: xs') ys' rfl
        simpa using this
      have e3 : levDist xs'.reverse ys'.reverse = levDist xs' ys' :=
        ih (xs'.length + ys'.length) (by omega) xs' ys' (by simp)
      calc levDist (x :: xs').reverse (y :: ys').reverse
          = levDist (xs'.reverse ++ [x]) (ys'.reverse ++ [y]) := by
            simp [List.reverse_cons]
        _ = min (levDist xs'.reverse (ys'.reverse ++ [y]) + 1)
              (min (levDist (xs'.reverse ++ [x]) ys'.reverse + 1)
                (levDist xs'.reverse ys'.reverse + if x = y then 0 else 1)) := hsnoc
        _ = min (levDist xs' (y :: ys') + 1)
              (min (levDist (x :: xs') ys' + 1)
                (levDist xs' ys' + if x = y then 0 else 1)) := by
            rw [e1, e2, e3]
        _ = levDist (x :: xs') (y :: ys') := (levDist_cons_cons x y xs' ys').symm

/-- The DP inside `levenshtein_similarity` computes the Levenshtein
distance of its inputs. -/
theorem levLoop_getD_levDist (l1 l2 : List Char) :
    (levLoop l2 l1 0 (List.range (l2.length + 1))).getD l2.length 0 = levDist l1 l2 := by
  rw [levLoop_getD]
  exact levDist_reverse (l1.length + l2.length) l1 l2 rfl


theorem findClose_length :
    ∀ l p, findClose l = some p → p.2.length + 2 ≤ l.length := by
  intro l
  induction l with
  | nil => intro p h; simp [findClose] at h
  | cons ch rest ih =>
    intro p h
    rw [findClose.eq_def] at h
    dsimp only at h
    split at h
    · rename_i hcond
      cases h
      match rest, hcond with
      | [], hcond => exact absurd hcond.2 (by decide)
      | r1 :: rest', _ => simp
    · split at h
      · cases h
      · simp only [Option.map_eq_some'] at h
        obtain ⟨q, hq, hpq⟩ := h
        have h3 := ih q hq
        subst hpq
        simp only [List.length_cons]
        omega


/-! ### TimelineMerger claims -/

theorem TimelineMerger.mergeStep_last_emit_le (cfg : TimelineMerger.Config)
    (off : ℚ) (acc : List Word × TimelineMerger.State) (w : Word) :
    acc.2.last_emit_time_ms ≤ (TimelineMerger.mergeStep cfg off acc w).2.last_emit_time_ms := by
  unfold TimelineMerger.mergeStep
  dsimp only
  split
  · exact le_rfl
  · split
    · exact le_rfl
    · split
      · split
        · split
          · exact le_rfl
          · exact le_rfl
        · exact le_rfl
      · split
        · exact le_max_left _ _
        · exact le_rfl

theorem TimelineMerger.foldl_mergeStep_last_emit_le (cfg : TimelineMerger.Config)
    (off : ℚ) :
    ∀ (ws : List Word) (acc : List Word × TimelineMerger.State),
      acc.2.last_emit_time_ms ≤
        (ws.foldl (TimelineMerger.mergeStep cfg off) acc).2.last_emit_time_ms := by
  intro ws
  induction ws with
  | nil => intro acc; exact le_rfl
  | cons w ws ih =>
    intro acc
    exact le_trans (TimelineMerger.mergeStep_last_emit_le cfg off acc w)
      (ih (TimelineMerger.mergeStep cfg off acc w))

/-- C2: for every call to `TimelineMerger.merge_chunk`, the value of
`last_emit_time_ms` after the call is greater than or equal to its value
before the call, regardless of the words passed in, the chunk offset, the
configuration, or whether any replacement occurs; hence it is
monotonically non-decreasing over any sequence of calls in a session. -/
theorem C2_last_emit_time_monotone (cfg : TimelineMerger.Config)
    (st : TimelineMerger.State) (words : List Word) (chunk_offset_ms : ℚ) :
    st.last_emit_time_ms ≤
      (TimelineMerger.merge_chunk cfg st words chunk_offset_ms).2.last_emit_time_ms := by
  unfold TimelineMerger.merge_chunk
  split
  · exact le_rfl
  · exact TimelineMerger.foldl_mergeStep_last_emit_le cfg chunk_offset_ms words ([], st)

unseal Rat.add Rat.mul Rat.inv Rat.sub Nat.gcd in
/-- C1 (code bug): on the spec's own boundary scenario — timeline entry
`cliff [1000, 1200]` with confidence `0.55`, `last_emit_time_ms = 1100`,
replacement enabled with threshold `0.3`, incoming word `cliff
[1000, 1200]` with confidence `0.95` — `merge_chunk` replaces the
timeline entry in place (index 0, confidence now `0.95`) but returns an
*empty* list of new words: the replaced word is never emitted, although
the comment in `merge_chunk` claims `_try_replace_overlapping_word`
already added it to `new_words`. -/
theorem C1_replacement_not_emitted :
    TimelineMerger.merge_chunk
      { overlap_confidence_threshold := 3/10, min_word_confidence := 2/5,
        enable_confidence_replacement := true }
      { global_timeline :=
          [{ word := "cliff", start_ms := 1000, end_ms := 1200, confidence := 11/20 }],
        last_emit_time_ms := 1100 }
      [{ word := "cliff", start_ms := 1000, end_ms := 1200, confidence := 19/20 }]
      0 =
    ([],
     { global_timeline :=
         [{ word := "cliff", start_ms := 1000, end_ms := 1200, confidence := 19/20 }],
       last_emit_time_ms := 1100 }) := by
  decide

/-! ### Decoder gate claims -/

/-- C3: for every `[1, V, T]` output tensor, if the mean over frames of
the blank token's column-wise softmax probability (max-subtracted,
clipped to `[-100, 100]`) exceeds `0.97`, then `decode_output` returns
`None` — whatever the decoder state, tokenizer, hash or time. -/
theorem C3_blank_gate (cfg : DecoderConfig) (sp : Tokenizer) (exp : ℚ → ℚ)
    (st : DecoderState) (output_tensor : List (List (List ℚ)))
    (audio_hash : Option String) (now : ℚ)
    (h : avg_blank_prob exp cfg.blank_id output_tensor > 97/100) :
    (decode_output cfg sp exp st output_tensor audio_hash now).1 = none := by
  unfold decode_output
  rw [if_pos h, ite_self]

unseal Rat.add Rat.mul Rat.inv Rat.sub Nat.gcd in
/-- C3 witness: on `blank_tensor` (vocab = {blank}, two frames) the blank
posterior mean is `1 > 0.97` and the decode is rejected. -/
theorem C3_blank_gate_witness :
    avg_blank_prob demo_exp demo_config.blank_id blank_tensor > 97/100 ∧
      (decode_output demo_config demo_tokenizer demo_exp demo_state blank_tensor
        none 100).1 = none :=
  ⟨by decide,
   C3_blank_gate demo_config demo_tokenizer demo_exp demo_state blank_tensor
     none 100 (by decide)⟩

/-! ### VAD short-circuit claim -/

/-- C4: whenever the window RMS is at or below the energy threshold
(noise floor plus `rms_margin`, or the static threshold when no floor is
available), `is_speech_segment` returns `is_speech = false` with the
untouched sentinel metrics (`zcr = 0.0`, `spectral_entropy = 1.0`) — in
every VAD mode and independently of the spectral-entropy routine, which
is never evaluated. -/
theorem C4_low_energy_short_circuit (cfg : AudioProcessor.Config)
    (sqrtFn : ℚ → ℚ) (entropyFn : List ℚ → ℚ) (audio_data : List ℚ)
    (noise_floor : Option ℚ)
    (h : AudioProcessor.calculate_rms sqrtFn audio_data ≤
      AudioProcessor.energy_threshold cfg noise_floor) :
    AudioProcessor.is_speech_segment cfg sqrtFn entropyFn audio_data noise_floor =
      (false,
       AudioProcessor.lowEnergyMetrics (AudioProcessor.calculate_rms sqrtFn audio_data)) := by
  unfold AudioProcessor.is_speech_segment
  rw [if_pos (not_lt.mpr h)]

unseal Rat.add Rat.mul Rat.inv Rat.sub Nat.gcd in
/-- C4 witness: a silent window `[0, 0]` under the static threshold
`0.01` in `accurate` mode. -/
theorem C4_low_energy_witness :
    AudioProcessor.calculate_rms (fun q => q) [0, 0] ≤
        AudioProcessor.energy_threshold
          { rms_margin := 1/250, vad_energy_threshold := 1/100, vad_zcr_min := 1/50,
            vad_zcr_max := 7/20, vad_entropy_max := 17/20, vad_mode := "accurate" }
          none ∧
      AudioProcessor.is_speech_segment
          { rms_margin := 1/250, vad_energy_threshold := 1/100, vad_zcr_min := 1/50,
            vad_zcr_max := 7/20, vad_entropy_max := 17/20, vad_mode := "accurate" }
          (fun q => q) (fun _ => 0) [0, 0] none =
        (false,
         AudioProcessor.lowEnergyMetrics
           (AudioProcessor.calculate_rms (fun q => q) [0, 0])) :=
  ⟨by decide,
   C4_low_energy_short_circuit _ _ _ _ _ (by decide)⟩

/-! ### Confidence-stitching claim -/

theorem stitchLoop_skip (cfg : DecoderConfig) (pw cw : List String)
    (pc cc : ℚ) (txt : String) (k : ℕ) :
    ∀ n, k ≤ n → (∀ j, k < j → j ≤ n → stitch_sim pw cw j < 7/10) →
      stitchLoop cfg pw cw pc cc txt n = stitchLoop cfg pw cw pc cc txt k := by
  intro n
  induction n with
  | zero =>
    intro hk _
    have : k = 0 := Nat.le_zero.mp hk
    rw [this]
  | succ n ih =>
    intro hk hall
    rcases Nat.lt_or_ge k (n + 1) with hlt | hge
    · have hk' : k ≤ n := Nat.lt_succ_iff.mp hlt
      have hsim : stitch_sim pw cw (n + 1) < 7/10 :=
        hall (n + 1) (Nat.lt_succ_of_le hk') (le_rfl)
      rw [stitchLoop, if_neg (not_le.mpr hsim)]
      exact ih hk' (fun j h1 h2 => hall j h1 (Nat.le_succ_of_le h2))
    · have : k = n + 1 := Nat.le_antisymm hk hge
      rw [this]

theorem stitchLoop_hit (cfg : DecoderConfig) (pw cw : List String)
    (pc cc : ℚ) (txt : String) (k : ℕ) (hk : 1 ≤ k)
    (hsim : stitch_sim pw cw k ≥ 7/10) :
    stitchLoop cfg pw cw pc cc txt k =
      some (if pc < cfg.confidence_threshold then joinSpace (cw.drop k)
            else if cc < cfg.confidence_threshold then txt else txt) := by
  obtain ⟨k', rfl⟩ : ∃ k', k = k' + 1 := ⟨k - 1, by omega⟩
  rw [stitchLoop, if_pos hsim]

/-- C5: for a stored previous-chunk tail and a current decoded text, when
confidence stitching is enabled and `k` is the largest overlap length
(counting down from `min(|tail words|, |current words|)`) at which the
lowercased tail/head strings reach similarity `0.7`: if the stored tail's
confidence is below `confidence_threshold` the first `k` words of the
current chunk are dropped, and otherwise the current text is returned
unchanged. -/
theorem C5_confidence_stitching (cfg : DecoderConfig) (tail : ChunkTail)
    (current_text : String) (current_confidence : ℚ) (k : ℕ)
    (henabled : cfg.enable_confidence_stitching = true)
    (hk1 : 1 ≤ k)
    (hk2 : k ≤ min tail.words.length (splitWs current_text).length)
    (hsim : stitch_sim tail.words (splitWs current_text) k ≥ 7/10)
    (hmax : ∀ j, k < j → j ≤ min tail.words.length (splitWs current_text).length →
      stitch_sim tail.words (splitWs current_text) j < 7/10) :
    stitchStep cfg (some tail) current_text current_confidence =
      if tail.confidence < cfg.confidence_threshold then
        joinSpace ((splitWs current_text).drop k)
      else current_text := by
  unfold stitchStep
  rw [if_pos henabled]
  unfold apply_confidence_stitching
  dsimp only
  have hcw : ¬ splitWs current_text = [] := by
    intro hnil
    rw [hnil] at hk2
    simp at hk2
    omega
  rw [if_neg hcw]
  rw [stitchLoop_skip cfg tail.words (splitWs current_text) tail.confidence
      current_confidence current_text k _ hk2 hmax,
    stitchLoop_hit cfg tail.words (splitWs current_text) tail.confidence
      current_confidence current_text k hk1 hsim]
  by_cases hpc : tail.confidence < cfg.confidence_threshold
  · rw [if_pos hpc, if_pos hpc]
  · rw [if_neg hpc, if_neg hpc, ite_self]

unseal Rat.add Rat.mul Rat.inv Rat.sub Nat.gcd in
/-- C5 witness: the spec's boundary scenario 4 — stored tail
`"the quick brown fox"` with confidence `0.40`, current chunk
`"the quick brown fox jumps over"` with confidence `0.80`, threshold
`0.6`: the overlap is found at `k = 4` and the result is
`"jumps over"`. -/
theorem C5_confidence_stitching_witness :
    stitch_sim ["the", "quick", "brown", "fox"]
        (splitWs "the quick brown fox jumps over") 4 ≥ 7/10 ∧
      stitchStep demo_config
          (some { text := "the quick brown fox", confidence := 2/5,
                  words := ["the", "quick", "brown", "fox"] })
          "the quick brown fox jumps over" (4/5) = "jumps over" := by
  refine ⟨by decide, ?_⟩
  have h := C5_confidence_stitching demo_config
    { text := "the quick brown fox", confidence := 2/5,
      words := ["the", "quick", "brown", "fox"] }
    "the quick brown fox jumps over" (4/5) 4
    (by decide) (by decide) (by decide) (by decide)
    (fun j h1 h2 => absurd (Nat.lt_of_lt_of_le h1 h2) (by decide))
  rw [h, if_pos (by decide)]
  decide

/-! ### Levenshtein-similarity claim -/

unseal Rat.add Rat.mul Rat.inv Rat.sub Nat.gcd in
/-- C6 counterexample: `levenshtein_similarity("a", "abc")` is `0.0` (the
quick length reject), while `1 - levenshtein_distance / max_len` is
`1 - 2/3 = 1/3`: the similarity does *not* always equal the formula. -/
theorem C6_similarity_counterexample :
    levenshtein_similarity "a" "abc" ≠
      1 - ((levenshtein Levenshtein.defaultCost "a".data "abc".data : ℕ) : ℚ) /
        ((max "a".length "abc".length : ℕ) : ℚ) := by
  decide

/-- C6 (amended): `levenshtein_similarity(s1, s2)` equals
`1 - levenshtein_distance(s1, s2) / max(len(s1), len(s2))` (with `1.0`
for equal strings and `0.0` when one side is empty), *except* that when
the length difference exceeds half of the longer length the function
quick-rejects to `0.0` without computing the distance. -/
theorem C6_similarity_amended (s1 s2 : String) :
    levenshtein_similarity s1 s2 =
      if s1 = s2 then 1
      else if s1 = "" ∨ s2 = "" then 0
      else if ((((s1.length : ℤ) - (s2.length : ℤ)).natAbs : ℚ) /
          ((max s1.length s2.length : ℕ) : ℚ)) > 1/2 then 0
      else 1 - ((levenshtein Levenshtein.defaultCost s1.data s2.data : ℕ) : ℚ) /
        ((max s1.length s2.length : ℕ) : ℚ) := by
  obtain ⟨l1⟩ := s1
  obtain ⟨l2⟩ := s2
  have e12 : (({ data := l1 } : String) = { data := l2 }) ↔ l1 = l2 :=
    ⟨fun h => congrArg String.data h, fun h => by rw [h]⟩
  have e1 : (({ data := l1 } : String) = "") ↔ l1 = [] :=
    ⟨fun h => congrArg String.data h, fun h => by rw [h]⟩
  have e2 : (({ data := l2 } : String) = "") ↔ l2 = [] :=
    ⟨fun h => congrArg String.data h, fun h => by rw [h]⟩
  simp only [levenshtein_similarity, levSimChars, String.length, e12, e1, e2]
  by_cases h1 : l1 = l2
  · rw [if_pos h1, if_pos h1]
  · rw [if_neg h1, if_neg h1]
    by_cases h2 : l1 = [] ∨ l2 = []
    · rw [if_pos h2, if_pos h2]
    · rw [if_neg h2, if_neg h2]
      by_cases h3 : ((((l1.length : ℤ) - (l2.length : ℤ)).natAbs : ℚ) /
          ((max l1.length l2.length : ℕ) : ℚ)) > 1/2
      · rw [if_pos h3, if_pos h3]
      · rw [if_neg h3, if_neg h3]
        have hpos : 0 < max l1.length l2.length := by
          have h := (not_or.mp h2).1
          have : 0 < l1.length := List.length_pos.mpr h
          omega
        rw [if_pos hpos, levLoop_getD_levDist, levDist_def]

/-! ### Audio-hash deduplication claim -/

/-- C7 (amended): a repeated audio hash is short-circuited to `None`
provided it is still in the 10-entry ring *and* still present in the
hash→result map; the map evicts to the 15 oldest-position-trimmed entries
when it exceeds 20, and re-recording a hash does not refresh its
insertion position, so ring membership alone does not suffice. -/
theorem C7_duplicate_hash_suppressed (cfg : DecoderConfig) (sp : Tokenizer)
    (exp : ℚ → ℚ) (st : DecoderState) (output_tensor : List (List (List ℚ)))
    (h : String) (now : ℚ)
    (h1 : h ≠ "") (h2 : h ∈ st.chunk_hashes)
    (h3 : (st.hash_to_text.lookup h).isSome = true) :
    (decode_output cfg sp exp st output_tensor (some h) now).1 = none := by
  have hdup : isDuplicateHash st (some h) = true := by
    simp only [isDuplicateHash, Bool.and_eq_true, decide_eq_true_eq]
    exact ⟨⟨h1, List.elem_iff.mpr h2⟩, h3⟩
  unfold decode_output
  rw [if_pos hdup]

unseal Rat.add Rat.mul Rat.inv Rat.sub Nat.gcd in
/-- C7 witness: a state whose ring and map both hold `"h"`; the second
decode with the same hash yields `None`. -/
theorem C7_duplicate_hash_suppressed_witness :
    "h" ∈ (["h"] : List String) ∧
      (decode_output demo_config demo_tokenizer demo_exp
          { last_texts := [], last_emit_ts := 0, chunk_hashes := ["h"],
            hash_to_text := [("h", demo_result)], prev_chunk_tail := none }
          demo_tensor (some "h") 100).1 = none :=
  ⟨by decide,
   C7_duplicate_hash_suppressed demo_config demo_tokenizer demo_exp
     { last_texts := [], last_emit_ts := 0, chunk_hashes := ["h"],
       hash_to_text := [("h", demo_result)], prev_chunk_tail := none }
     demo_tensor "h" 100 (by decide) (by decide) (by decide)⟩

unseal Rat.add Rat.mul Rat.inv Rat.sub Nat.gcd in
/-- C7 counterexample: after the `hash_trace` session of
`add_audio_hash` calls, hash `"h"` is among the 10 most recently recorded
hashes (it is in the ring) but has been evicted from the hash→result map,
and a subsequent `decode_output` with the same hash produces a *second*
`ChunkResult` instead of `None`. -/
theorem C7_duplicate_hash_counterexample :
    "h" ∈ traced_state.chunk_hashes ∧
      traced_state.hash_to_text.lookup "h" = none ∧
      (decode_output demo_config demo_tokenizer demo_exp traced_state
          demo_tensor (some "h") 100).1.isSome = true := by
  refine ⟨by decide, by decide, by decide⟩

/-! ### Language-lock claim -/

/-- C8: once `locked` is set — whether pre-locked from a fixed initial
language, locked onto a winning language, or abandoned after an
inconclusive or under-sampled warmup — `record_detection` leaves the
state (current language, detections, locked flag, warmup timestamp)
completely unchanged. -/
theorem C8_locked_record_detection_noop (st : LanguageLockManager.State)
    (language_name : String) (now : ℚ) (h : st.locked = true) :
    LanguageLockManager.record_detection st language_name now = st := by
  unfold LanguageLockManager.record_detection
  rw [if_pos (Or.inr h)]

/-- C8 witness: a state locked onto `en` ignores a further `Chinese`
detection. -/
theorem C8_locked_record_detection_noop_witness :
    ({ enabled := true, initial_language := "auto", warmup_duration := 10,
       min_samples := 3, confidence_threshold := 3/5, current_language := "en",
       locked := true, warmup_start := some 1, detections := ["en", "en", "zh"] }
        : LanguageLockManager.State).locked = true ∧
      LanguageLockManager.record_detection
        { enabled := true, initial_language := "auto", warmup_duration := 10,
          min_samples := 3, confidence_threshold := 3/5, current_language := "en",
          locked := true, warmup_start := some 1, detections := ["en", "en", "zh"] }
        "Chinese" 20 =
        { enabled := true, initial_language := "auto", warmup_duration := 10,
          min_samples := 3, confidence_threshold := 3/5, current_language := "en",
          locked := true, warmup_start := some 1, detections := ["en", "en", "zh"] } :=
  ⟨rfl,
   C8_locked_record_detection_noop
     { enabled := true, initial_language := "auto", warmup_duration := 10,
       min_samples := 3, confidence_threshold := 3/5, current_language := "en",
       locked := true, warmup_start := some 1, detections := ["en", "en", "zh"] }
     "Chinese" 20 rfl⟩

/-! ### Orchestrator startup-order claim -/

/-- C9 counterexample: the pipeline does *not* start in the order
emitter → Postprocessing → Inference → Preprocessing. -/
theorem C9_startup_order_counterexample :
    PipelineOrchestrator.startOrder ≠
      ["AsyncEmitter", "Postprocessing", "Inference", "Preprocessing"] := by
  decide

/-- C9 (amended): `start()` brings the components up in the order
emitter first, then the Preprocessing stage, then the Inference stage,
then the Postprocessing stage last (`self.stages` in list order);
`stop()` uses the reverse stage order with the emitter last. -/
theorem C9_startup_order :
    PipelineOrchestrator.startOrder =
        ["AsyncEmitter", "Preprocessing", "Inference", "Postprocessing"] ∧
      PipelineOrchestrator.stopOrder =
        ["Postprocessing", "Inference", "Preprocessing", "AsyncEmitter"] := by
  exact ⟨rfl, rfl⟩

/-! ### Content-gate claim -/

/-- C10: the content gate counts only ASCII `[A-Za-z0-9]` characters in
the tag-stripped text: whenever fewer than `min_chars` such characters
are present, `decode_output` returns `None`; in particular a decode whose
clean text consists solely of non-ASCII characters (for instance only
Chinese, Japanese, or Korean text) is always rejected when
`min_chars ≥ 1`, regardless of its length. -/
theorem C10_content_gate (cfg : DecoderConfig) (sp : Tokenizer) (exp : ℚ → ℚ)
    (st : DecoderState) (output_tensor : List (List (List ℚ)))
    (audio_hash : Option String) (now : ℚ) :
    (countAlnum (clean_text_of cfg sp exp output_tensor) < cfg.min_chars →
      (decode_output cfg sp exp st output_tensor audio_hash now).1 = none) ∧
    ((∀ ch ∈ (clean_text_of cfg sp exp output_tensor).data, isAsciiAlnum ch = false) →
      1 ≤ cfg.min_chars →
      (decode_output cfg sp exp st output_tensor audio_hash now).1 = none) := by
  have main : countAlnum (clean_text_of cfg sp exp output_tensor) < cfg.min_chars →
      (decode_output cfg sp exp st output_tensor audio_hash now).1 = none := by
    intro h
    unfold clean_text_of at h
    unfold decode_output
    dsimp only
    split
    · rfl
    · split
      · rfl
      · split
        · rfl
        · rfl
  refine ⟨main, fun hall hmin => main ?_⟩
  have hz : countAlnum (clean_text_of cfg sp exp output_tensor) = 0 := by
    unfold countAlnum
    rw [List.filter_eq_nil_iff.mpr]
    · rfl
    · intro ch hch
      simp [hall ch hch]
  omega

unseal Rat.add Rat.mul Rat.inv Rat.sub Nat.gcd in
/-- C10 witness: with a tokenizer decoding to Chinese-only text
(`"你好吗你好吗你好吗"`, nine characters), every character fails
`[A-Za-z0-9]` and the decode is rejected under `min_chars = 3`. -/
theorem C10_content_gate_witness :
    (∀ ch ∈ (clean_text_of demo_config cjk_tokenizer demo_exp demo_tensor).data,
        isAsciiAlnum ch = false) ∧
      (decode_output demo_config cjk_tokenizer demo_exp demo_state demo_tensor
        none 100).1 = none :=
  ⟨by decide,
   (C10_content_gate demo_config cjk_tokenizer demo_exp demo_state demo_tensor
       none 100).2 (by decide) (by decide)⟩
